import Mathlib

/-!
# Verification of the Lua-GPUDsp DFT engine specification

The repository ships `src/DFT.h`, which declares three DFT engines over
sequences of `std::complex<float>`:

* `calculateDFT`            — sequential reference engine,
* `calculateDFTCUDA`        — accelerator engine, one worker per output bin,
* `calculateDFTCUDALargeMem` — staged accelerator engine for inputs larger
  than device memory.

Only the declarations live in the repository; the engine bodies are absent.
The definitions below therefore model the engines from the specification
(§4.1–§4.4): samples become exact complex numbers (`ℂ`), a sequence becomes a
`List ℂ`, and the `num` argument is the list length.  Floating-point rounding
is not modelled; every "within tolerance" clause of the specification is
settled as an exact equality of the idealized arithmetic.
-/

open Finset

noncomputable section

/-- Modelled from the spec (§4.1): the twiddle factor `exp(-2πi·k·n/num)`.
The repository declares but does not implement the engines, so the factor is
taken from the specification's formula. -/
def twiddle (num k n : ℕ) : ℂ :=
  Complex.exp (-(2 * Real.pi * Complex.I) * ((k : ℂ) * (n : ℂ)) / (num : ℂ))

/-- Modelled from the spec (§4.1): the direct-DFT value of bin `k`,
`Σ_{n=0}^{num-1} input[n] · exp(-2πi·k·n/num)`, as a mathematical sum. -/
def dftFormula (input : List ℂ) (k : ℕ) : ℂ :=
  ∑ n ∈ Finset.range input.length, input.getD n 0 * twiddle input.length k n

/-- Ascending left-to-right accumulation `((0 + f 0) + f 1) + ⋯ + f (n-1)`,
the summation order the spec requires of the sequential engine (§4.2). -/
def sumAsc (f : ℕ → ℂ) : ℕ → ℂ
  | 0 => 0
  | n + 1 => sumAsc f n + f n

/-- Modelled from the spec (§4.2): the Reference Engine.  Missing from
`src/` (only declared in `src/DFT.h`).  Computes every bin in increasing
order of `k`, summing over `n` in increasing order. -/
def calculateDFT (input : List ℂ) : List ℂ :=
  (List.range input.length).map fun k =>
    sumAsc (fun n => input.getD n 0 * twiddle input.length k n) input.length

/-- Modelled from the spec (§4.3): the per-bin worker of the Parallel
Engine; worker `k` performs the full inner summation over all `n`
independently of every other worker. -/
def cudaWorker (input : List ℂ) (k : ℕ) : ℂ :=
  ∑ n ∈ Finset.range input.length, input.getD n 0 * twiddle input.length k n

/-- Modelled from the spec (§4.3): the Parallel Engine.  Missing from
`src/` (only declared in `src/DFT.h`).  One independent unit of work per
output frequency bin. -/
def calculateDFTCUDA (input : List ℂ) : List ℂ :=
  (List.range input.length).map (cudaWorker input)

/-- Modelled from the spec (§4.4 step 3b): the partial sum a staged worker
adds into accumulator bin `k` for chunk `c`, i.e.
`Σ_{n=start_c}^{end_c-1} input[n]·exp(-2πi·k·n/num)` with
`start_c = c·C` and `end_c = min((c+1)·C, num)`. -/
def chunkSum (input : List ℂ) (C k c : ℕ) : ℂ :=
  ∑ n ∈ Finset.Ico (c * C) (min ((c + 1) * C) input.length),
    input.getD n 0 * twiddle input.length k n

/-- Modelled from the spec (§4.4 steps 2–3): the accumulator bin `k` after
the first `c` chunk passes; starts at zero and folds one chunk's partial
sum per pass, passes strictly sequential. -/
def stagedAcc (input : List ℂ) (C k : ℕ) : ℕ → ℂ
  | 0 => 0
  | c + 1 => stagedAcc input C k c + chunkSum input C k c

/-- Modelled from the spec (§4.4 step 1): the chunk count `ceil(num / C)`. -/
def numChunks (num C : ℕ) : ℕ := (num + C - 1) / C

/-- Modelled from the spec (§4.4): the Staged Parallel Engine's computation
for a given chunk size `C`: every bin is the accumulator's value after all
`ceil(num/C)` chunk passes. -/
def calculateDFTCUDALargeMemChunked (input : List ℂ) (C : ℕ) : List ℂ :=
  (List.range input.length).map fun k =>
    stagedAcc input C k (numChunks input.length C)

/-- Modelled from the spec (§4.4 step 1): chunk-size selection.  The device
memory budget is counted in Samples; one chunk of size `C` plus the full
`num`-length accumulator must fit (`num + C ≤ budget`) and `C ≥ 1`.  The
largest such `C` is chosen; if none exists the call must fail. -/
def chooseChunkSize (num budget : ℕ) : Option ℕ :=
  if num + 1 ≤ budget then some (budget - num) else none

/-- Modelled from the spec (§4.4, §7): the Staged Parallel Engine.  Missing
from `src/` (only declared in `src/DFT.h`).  `num == 0` is a no-op producing
an empty output (§7, degenerate input); otherwise, if no viable chunk size
exists the call fails with an out-of-memory condition (`none`) and writes
nothing, else the full staged result is produced. -/
def calculateDFTCUDALargeMem (input : List ℂ) (budget : ℕ) : Option (List ℂ) :=
  if input.length = 0 then some []
  else
    match chooseChunkSize input.length budget with
    | some C => some (calculateDFTCUDALargeMemChunked input C)
    | none => none

/-- The all-ones test sequence of §8: `num` samples, each `1 + 0i`. -/
def allOnes (num : ℕ) : List ℂ := List.replicate num 1

/-- The unit-impulse test sequence of §8 for `num ≥ 1`: `1 + 0i` at index 0,
`0` elsewhere, length `num`. -/
def impulse (num : ℕ) : List ℂ := 1 :: List.replicate (num - 1) 0

/-- The pointwise linear combination `a·x + b·y` of two sequences (§8,
linearity property). -/
def linComb (a b : ℂ) (x y : List ℂ) : List ℂ :=
  List.zipWith (fun u v => a * u + b * v) x y

end

/-- The C types appearing in the declarations of `src/DFT.h`. -/
inductive CType where
  | complexFloatPtr
  | size_t
  | void
  deriving DecidableEq

/-- A C function declaration: name, return type, parameter types. -/
structure CDecl where
  name : String
  ret : CType
  params : List CType
  deriving DecidableEq

/-- The three declarations of `src/DFT.h`, transcribed:
`void calculateDFT(std::complex<float>*, std::complex<float>*, size_t);`
`void calculateDFTCUDA(std::complex<float>*, std::complex<float>*, size_t);`
`void calculateDFTCUDALargeMem(std::complex<float>*, std::complex<float>*, size_t);` -/
def dftHeaderDecls : List CDecl :=
  [⟨"calculateDFT", .void, [.complexFloatPtr, .complexFloatPtr, .size_t]⟩,
   ⟨"calculateDFTCUDA", .void, [.complexFloatPtr, .complexFloatPtr, .size_t]⟩,
   ⟨"calculateDFTCUDALargeMem", .void, [.complexFloatPtr, .complexFloatPtr, .size_t]⟩]

/-! ## Basic lemmas -/

theorem sumAsc_eq_sum (f : ℕ → ℂ) (n : ℕ) :
    sumAsc f n = ∑ i ∈ Finset.range n, f i := by
  induction n with
  | zero => simp [sumAsc]
  | succ n ih => rw [sumAsc, ih, Finset.sum_range_succ]

theorem calculateDFT_length (input : List ℂ) :
    (calculateDFT input).length = input.length := by
  simp [calculateDFT]

theorem calculateDFT_getD (input : List ℂ) (k : ℕ) (hk : k < input.length) :
    (calculateDFT input).getD k 0 = dftFormula input k := by
  unfold calculateDFT dftFormula
  rw [List.getD_eq_getElem _ _ (by simpa using hk)]
  simp [sumAsc_eq_sum]

theorem stagedAcc_eq_sum (input : List ℂ) (C k m : ℕ) :
    stagedAcc input C k m =
      ∑ n ∈ Finset.range (min (m * C) input.length),
        input.getD n 0 * twiddle input.length k n := by
  induction m with
  | zero => simp [stagedAcc]
  | succ m ih =>
    rw [stagedAcc, ih, chunkSum]
    rcases le_or_lt (m * C) input.length with h | h
    · have hmin : min (m * C) input.length = m * C := min_eq_left h
      rw [hmin, Finset.range_eq_Ico]
      exact Finset.sum_Ico_consecutive _ (Nat.zero_le _)
        (le_min (Nat.mul_le_mul_right C (Nat.le_succ m)) h)
    · have h1 : min (m * C) input.length = input.length := min_eq_right h.le
      have h2 : min ((m + 1) * C) input.length = input.length :=
        min_eq_right (le_trans h.le (Nat.mul_le_mul_right C (Nat.le_succ m)))
      rw [h1, h2, Finset.Ico_eq_empty (by omega), Finset.sum_empty, add_zero]

theorem numChunks_mul_ge (num C : ℕ) (hC : 1 ≤ C) : num ≤ numChunks num C * C := by
  by_contra h
  push_neg at h
  have h1 : (numChunks num C + 1) * C ≤ num + C - 1 := by
    rw [add_mul, one_mul]
    omega
  have h2 : numChunks num C + 1 ≤ (num + C - 1) / C :=
    (Nat.le_div_iff_mul_le hC).mpr h1
  unfold numChunks at h2
  omega

theorem chunked_eq_cuda (input : List ℂ) (C : ℕ) (hC : 1 ≤ C) :
    calculateDFTCUDALargeMemChunked input C = calculateDFTCUDA input := by
  unfold calculateDFTCUDALargeMemChunked calculateDFTCUDA
  have hfun : (fun k => stagedAcc input C k (numChunks input.length C)) =
      cudaWorker input := by
    funext k
    rw [stagedAcc_eq_sum, cudaWorker,
      min_eq_right (numChunks_mul_ge input.length C hC)]
  rw [hfun]

theorem cuda_eq_ref (input : List ℂ) :
    calculateDFTCUDA input = calculateDFT input := by
  unfold calculateDFTCUDA calculateDFT cudaWorker
  have hfun : (fun k => ∑ n ∈ Finset.range input.length,
        input.getD n 0 * twiddle input.length k n) =
      fun k => sumAsc (fun n => input.getD n 0 * twiddle input.length k n)
        input.length := by
    funext k
    rw [sumAsc_eq_sum]
  rw [hfun]

/-! ## Twiddle-factor lemmas -/

theorem twiddle_n_zero (num k : ℕ) : twiddle num k 0 = 1 := by
  simp [twiddle]

theorem twiddle_k_zero (num n : ℕ) : twiddle num 0 n = 1 := by
  simp [twiddle]

theorem twiddle_eq_pow (num k n : ℕ) :
    twiddle num k n =
      Complex.exp (-(2 * Real.pi * Complex.I) * (k : ℂ) / (num : ℂ)) ^ n := by
  rw [twiddle, ← Complex.exp_nat_mul]
  congr 1
  ring

theorem twiddleRoot_pow (num k : ℕ) (h : 1 ≤ num) :
    Complex.exp (-(2 * Real.pi * Complex.I) * (k : ℂ) / (num : ℂ)) ^ num = 1 := by
  rw [← Complex.exp_nat_mul]
  have hnum : (num : ℂ) ≠ 0 := Nat.cast_ne_zero.mpr (by omega)
  have harg : (num : ℂ) * (-(2 * Real.pi * Complex.I) * (k : ℂ) / (num : ℂ)) =
      ((-(k : ℤ) : ℤ) : ℂ) * (2 * Real.pi * Complex.I) := by
    push_cast
    field_simp
    ring
  rw [harg, Complex.exp_int_mul_two_pi_mul_I]

theorem twiddleRoot_ne_one (num k : ℕ) (h0 : 0 < k) (hk : k < num) :
    Complex.exp (-(2 * Real.pi * Complex.I) * (k : ℂ) / (num : ℂ)) ≠ 1 := by
  intro h
  rw [Complex.exp_eq_one_iff] at h
  obtain ⟨m, hm⟩ := h
  have hnum : (num : ℂ) ≠ 0 := Nat.cast_ne_zero.mpr (by omega)
  have h1 : (-(k : ℂ) / (num : ℂ)) * (2 * Real.pi * Complex.I) =
      (m : ℂ) * (2 * Real.pi * Complex.I) := by
    rw [← hm]; ring
  have h2 : (-(k : ℂ) / (num : ℂ)) = (m : ℂ) :=
    mul_right_cancel₀ Complex.two_pi_I_ne_zero h1
  rw [div_eq_iff hnum] at h2
  have h4 : (-(k : ℤ)) = m * num := by exact_mod_cast h2
  rcases le_or_lt 0 m with hm0 | hm0
  · have h5 : (0 : ℤ) ≤ m * num := mul_nonneg hm0 (Int.natCast_nonneg num)
    omega
  · have h5 : (1 : ℤ) ≤ -m := by omega
    have h6 : ((num : ℤ)) ≤ -m * num :=
      le_mul_of_one_le_left (Int.natCast_nonneg num) h5
    have h7 : -m * (num : ℤ) = -(m * num) := by ring
    omega

/-! ## Closed-form test inputs -/

theorem allOnes_length (num : ℕ) : (allOnes num).length = num := by
  simp [allOnes]

theorem allOnes_getD (num n : ℕ) (h : n < num) : (allOnes num).getD n 0 = 1 := by
  rw [allOnes, List.getD_eq_getElem _ _ (by simpa using h)]
  simp

theorem impulse_length (num : ℕ) (h : 1 ≤ num) : (impulse num).length = num := by
  simp [impulse]
  omega

theorem impulse_getD_zero (num : ℕ) : (impulse num).getD 0 0 = 1 := rfl

theorem impulse_getD_succ (num n : ℕ) : (impulse num).getD (n + 1) 0 = 0 := by
  rw [impulse]
  rcases lt_or_ge n (num - 1) with h | h
  · rw [show ((1 : ℂ) :: List.replicate (num - 1) 0).getD (n + 1) 0 =
        (List.replicate (num - 1) (0 : ℂ)).getD n 0 from rfl,
      List.getD_eq_getElem _ _ (by simpa using h)]
    simp
  · rw [show ((1 : ℂ) :: List.replicate (num - 1) 0).getD (n + 1) 0 =
        (List.replicate (num - 1) (0 : ℂ)).getD n 0 from rfl,
      List.getD_eq_default _ _ (by simpa using h)]

theorem dftFormula_allOnes_zero (num : ℕ) :
    dftFormula (allOnes num) 0 = (num : ℂ) := by
  unfold dftFormula
  rw [allOnes_length]
  rw [Finset.sum_congr rfl fun n hn => by
    rw [allOnes_getD num n (Finset.mem_range.mp hn), twiddle_k_zero, one_mul]]
  simp

theorem dftFormula_allOnes_ne_zero (num k : ℕ) (h0 : 0 < k) (hk : k < num) :
    dftFormula (allOnes num) k = 0 := by
  unfold dftFormula
  rw [allOnes_length]
  rw [Finset.sum_congr rfl fun n hn => by
    rw [allOnes_getD num n (Finset.mem_range.mp hn), twiddle_eq_pow, one_mul]]
  rw [geom_sum_eq (twiddleRoot_ne_one num k h0 hk),
    twiddleRoot_pow num k (by omega), sub_self, zero_div]

theorem dftFormula_impulse (num k : ℕ) (h : 1 ≤ num) :
    dftFormula (impulse num) k = 1 := by
  unfold dftFormula
  rw [impulse_length num h]
  rw [Finset.sum_eq_single_of_mem 0 (Finset.mem_range.mpr (by omega))
    (fun n _ hn => by
      obtain ⟨m, rfl⟩ := Nat.exists_eq_succ_of_ne_zero hn
      rw [impulse_getD_succ, zero_mul])]
  rw [impulse_getD_zero, twiddle_n_zero, one_mul]

/-! ## Linearity -/

theorem linComb_length (a b : ℂ) (x y : List ℂ) (h : x.length = y.length) :
    (linComb a b x y).length = x.length := by
  simp [linComb, h]

theorem linComb_getD (a b : ℂ) (x y : List ℂ) (n : ℕ)
    (hx : n < x.length) (hy : n < y.length) :
    (linComb a b x y).getD n 0 = a * x.getD n 0 + b * y.getD n 0 := by
  rw [linComb, List.getD_eq_getElem _ _ (by simp; omega),
    List.getD_eq_getElem _ _ hx, List.getD_eq_getElem _ _ hy,
    List.getElem_zipWith]

theorem dftFormula_linComb (a b : ℂ) (x y : List ℂ) (k : ℕ)
    (h : x.length = y.length) :
    dftFormula (linComb a b x y) k = a * dftFormula x k + b * dftFormula y k := by
  unfold dftFormula
  rw [linComb_length a b x y h, ← h]
  rw [Finset.sum_congr rfl fun n hn => by
    rw [linComb_getD a b x y n (Finset.mem_range.mp hn)
      (h ▸ Finset.mem_range.mp hn), add_mul, mul_assoc, mul_assoc]]
  rw [Finset.sum_add_distrib, ← Finset.mul_sum, ← Finset.mul_sum]

/-! ## Staged-engine call behaviour -/

theorem calculateDFTCUDALargeMem_eq (input : List ℂ) (budget : ℕ)
    (h0 : input.length ≠ 0) (hb : input.length + 1 ≤ budget) :
    calculateDFTCUDALargeMem input budget =
      some (calculateDFTCUDALargeMemChunked input (budget - input.length)) := by
  unfold calculateDFTCUDALargeMem chooseChunkSize
  rw [if_neg h0, if_pos hb]

theorem calculateDFTCUDALargeMem_oom (input : List ℂ) (budget : ℕ)
    (h0 : input.length ≠ 0) (hb : budget < input.length + 1) :
    calculateDFTCUDALargeMem input budget = none := by
  unfold calculateDFTCUDALargeMem chooseChunkSize
  rw [if_neg h0, if_neg (by omega)]

/-! ## Claim theorems -/

/-- Claim C1: for every input sequence and every bin index `k < num`, the
Reference Engine `calculateDFT` produces an output of length `num` whose
bin `k` equals the direct DFT sum `Σ_{n=0}^{num-1} input[n]·exp(-2πi·k·n/num)`
of §4.1; in the model, bins are produced in increasing order of `k` and the
inner sum is accumulated in increasing order of `n` by construction. -/
theorem C1_calculateDFT_matches_formula (input : List ℂ) (k : ℕ)
    (hk : k < input.length) :
    (calculateDFT input).length = input.length ∧
    (calculateDFT input).getD k 0 = dftFormula input k :=
  ⟨calculateDFT_length input, calculateDFT_getD input k hk⟩

theorem C1_witness :
    0 < [(1 : ℂ)].length ∧
      ((calculateDFT [(1 : ℂ)]).length = [(1 : ℂ)].length ∧
        (calculateDFT [(1 : ℂ)]).getD 0 0 = dftFormula [(1 : ℂ)] 0) :=
  ⟨by simp, C1_calculateDFT_matches_formula [(1 : ℂ)] 0 (by simp)⟩

/-- Claim C2: for every input sequence (in particular every sequence of
length up to any small bound), the Reference, Parallel, and Staged engines
produce the same output at every bin; in exact arithmetic the agreement is
an equality, which is within any floating-point tolerance.  In particular
the Staged engine's output equals the Parallel engine's output. -/
theorem C2_engines_agree (input : List ℂ) (C : ℕ) (hC : 1 ≤ C) :
    calculateDFTCUDA input = calculateDFT input ∧
    calculateDFTCUDALargeMemChunked input C = calculateDFT input ∧
    calculateDFTCUDALargeMemChunked input C = calculateDFTCUDA input := by
  have h1 := cuda_eq_ref input
  have h2 := chunked_eq_cuda input C hC
  exact ⟨h1, h2.trans h1, h2⟩

theorem C2_witness :
    1 ≤ 1 ∧
      (calculateDFTCUDA [(1 : ℂ), Complex.I] = calculateDFT [(1 : ℂ), Complex.I] ∧
        calculateDFTCUDALargeMemChunked [(1 : ℂ), Complex.I] 1 =
          calculateDFT [(1 : ℂ), Complex.I] ∧
        calculateDFTCUDALargeMemChunked [(1 : ℂ), Complex.I] 1 =
          calculateDFTCUDA [(1 : ℂ), Complex.I]) :=
  ⟨le_refl 1, C2_engines_agree [(1 : ℂ), Complex.I] 1 (le_refl 1)⟩

/-- Claim C3: the Staged engine's result does not depend on the chunk size:
any two chunk sizes `≥ 1` (in particular a forced chunk size of 1 and the
largest viable one) produce the same output, because partitioning the
`n`-range into chunks and accumulating partial sums is exact. -/
theorem C3_chunk_size_independent (input : List ℂ) (C₁ C₂ : ℕ)
    (h₁ : 1 ≤ C₁) (h₂ : 1 ≤ C₂) :
    calculateDFTCUDALargeMemChunked input C₁ =
      calculateDFTCUDALargeMemChunked input C₂ := by
  rw [chunked_eq_cuda input C₁ h₁, chunked_eq_cuda input C₂ h₂]

theorem C3_witness :
    1 ≤ 1 ∧ 1 ≤ 3 ∧
      calculateDFTCUDALargeMemChunked [(1 : ℂ), Complex.I, 2] 1 =
        calculateDFTCUDALargeMemChunked [(1 : ℂ), Complex.I, 2] 3 :=
  ⟨le_refl 1, by omega,
    C3_chunk_size_independent [(1 : ℂ), Complex.I, 2] 1 3 (le_refl 1) (by omega)⟩

/-- Claim C4: the DFT computed by the Reference Engine is linear: for all
complex scalars `a`, `b` and same-length sequences `x`, `y`,
`calculateDFT (a·x + b·y) = a·(calculateDFT x) + b·(calculateDFT y)`
(exactly, in the idealized arithmetic of the model). -/
theorem C4_linearity (a b : ℂ) (x y : List ℂ) (h : x.length = y.length) :
    calculateDFT (linComb a b x y) =
      linComb a b (calculateDFT x) (calculateDFT y) := by
  have hxy : (calculateDFT x).length = (calculateDFT y).length := by
    rw [calculateDFT_length, calculateDFT_length, h]
  apply List.ext_getElem
  · rw [calculateDFT_length, linComb_length a b x y h,
      linComb_length a b _ _ hxy, calculateDFT_length]
  · intro n h1 h2
    have hn : n < x.length := by
      rwa [calculateDFT_length, linComb_length a b x y h] at h1
    rw [← List.getD_eq_getElem _ 0 h1, ← List.getD_eq_getElem _ 0 h2]
    rw [calculateDFT_getD _ n (by rw [linComb_length a b x y h]; exact hn)]
    rw [linComb_getD a b (calculateDFT x) (calculateDFT y) n
      (by rw [calculateDFT_length]; exact hn)
      (by rw [calculateDFT_length, ← h]; exact hn)]
    rw [calculateDFT_getD x n hn, calculateDFT_getD y n (h ▸ hn)]
    exact dftFormula_linComb a b x y n h

theorem C4_witness :
    [(1 : ℂ)].length = [Complex.I].length ∧
      calculateDFT (linComb 2 Complex.I [(1 : ℂ)] [Complex.I]) =
        linComb 2 Complex.I (calculateDFT [(1 : ℂ)]) (calculateDFT [Complex.I]) :=
  ⟨rfl, C4_linearity 2 Complex.I [(1 : ℂ)] [Complex.I] rfl⟩

/-- Claim C5: for `num == 0` each of the three engines is a no-op producing
an empty output (the staged engine succeeds with an empty result at every
memory budget), not an error. -/
theorem C5_empty_input :
    calculateDFT ([] : List ℂ) = [] ∧
    calculateDFTCUDA ([] : List ℂ) = [] ∧
    (∀ C : ℕ, calculateDFTCUDALargeMemChunked ([] : List ℂ) C = []) ∧
    (∀ budget : ℕ, calculateDFTCUDALargeMem ([] : List ℂ) budget = some []) :=
  ⟨rfl, rfl, fun _ => rfl, fun _ => rfl⟩

/-- Claim C6: for `num == 1` and every single-sample input `z`, each engine
writes `output[0] = z` exactly (the staged engine does so at any chunk size
`≥ 1`, and the budgeted staged call succeeds with `[z]` whenever the sample
plus the one-bin accumulator fit, i.e. `budget ≥ 2`). -/
theorem C6_single_sample (z : ℂ) :
    calculateDFT [z] = [z] ∧
    calculateDFTCUDA [z] = [z] ∧
    (∀ C : ℕ, 1 ≤ C → calculateDFTCUDALargeMemChunked [z] C = [z]) ∧
    (∀ budget : ℕ, 2 ≤ budget → calculateDFTCUDALargeMem [z] budget = some [z]) := by
  have href : calculateDFT [z] = [z] := by
    simp [calculateDFT, sumAsc, twiddle]
  refine ⟨href, (cuda_eq_ref [z]).trans href, fun C hC => ?_, fun budget hb => ?_⟩
  · rw [chunked_eq_cuda [z] C hC, cuda_eq_ref, href]
  · rw [calculateDFTCUDALargeMem_eq [z] budget (by simp) (by simpa using hb),
      chunked_eq_cuda [z] _ (by simp; omega), cuda_eq_ref, href]

theorem C6_witness :
    1 ≤ 1 ∧ 2 ≤ 2 ∧
      calculateDFTCUDALargeMemChunked [Complex.I] 1 = [Complex.I] ∧
      calculateDFTCUDALargeMem [Complex.I] 2 = some [Complex.I] :=
  ⟨le_refl 1, le_refl 2,
    (C6_single_sample Complex.I).2.2.1 1 (le_refl 1),
    (C6_single_sample Complex.I).2.2.2 2 (le_refl 2)⟩

/-- Claim C7: for every `num ≥ 1`, the Reference Engine applied to the unit
impulse (1+0i at index 0, 0 elsewhere, length `num`) yields
`output[k] = 1 + 0i` for every bin `k < num`. -/
theorem C7_impulse (num k : ℕ) (h : 1 ≤ num) (hk : k < num) :
    (calculateDFT (impulse num)).getD k 0 = 1 := by
  rw [calculateDFT_getD _ k (by rw [impulse_length num h]; exact hk),
    dftFormula_impulse num k h]

theorem C7_witness :
    1 ≤ 2 ∧ 1 < 2 ∧ (calculateDFT (impulse 2)).getD 1 0 = 1 :=
  ⟨by omega, by omega, C7_impulse 2 1 (by omega) (by omega)⟩

/-- Claim C8: for every `num ≥ 1`, the Reference Engine applied to the
all-ones input of length `num` yields `output[0] = num + 0i` and
`output[k] = 0` exactly (hence within any tolerance) for every bin
`0 < k < num`. -/
theorem C8_all_ones (num : ℕ) (h : 1 ≤ num) :
    (calculateDFT (allOnes num)).getD 0 0 = (num : ℂ) ∧
    ∀ k : ℕ, 0 < k → k < num → (calculateDFT (allOnes num)).getD k 0 = 0 := by
  constructor
  · rw [calculateDFT_getD _ 0 (by rw [allOnes_length]; omega),
      dftFormula_allOnes_zero]
  · intro k h0 hk
    rw [calculateDFT_getD _ k (by rw [allOnes_length]; exact hk),
      dftFormula_allOnes_ne_zero num k h0 hk]

theorem C8_witness :
    1 ≤ 2 ∧ 0 < 1 ∧ 1 < 2 ∧
      (calculateDFT (allOnes 2)).getD 0 0 = ((2 : ℕ) : ℂ) ∧
      (calculateDFT (allOnes 2)).getD 1 0 = 0 :=
  ⟨by omega, by omega, by omega,
    (C8_all_ones 2 (by omega)).1,
    (C8_all_ones 2 (by omega)).2 1 (by omega) (by omega)⟩

/-- Claim C9: if the budgeted Staged engine cannot satisfy any viable chunk
size it fails with an out-of-memory condition (`none`), and on every call
the outcome is either an error with nothing written or the full valid
output (equal to the Reference Engine's result) — never a partial result
for a subset of bins without signaling failure. -/
theorem C9_no_partial_results (input : List ℂ) (budget : ℕ) :
    (0 < input.length → budget < input.length + 1 →
      calculateDFTCUDALargeMem input budget = none) ∧
    (calculateDFTCUDALargeMem input budget = none ∨
      calculateDFTCUDALargeMem input budget = some (calculateDFT input)) := by
  constructor
  · intro h0 hb
    exact calculateDFTCUDALargeMem_oom input budget (by omega) hb
  · cases input with
    | nil => exact Or.inr rfl
    | cons a t =>
      rcases le_or_lt ((a :: t).length + 1) budget with hb | hb
      · refine Or.inr ?_
        rw [calculateDFTCUDALargeMem_eq _ budget (by simp) hb,
          chunked_eq_cuda _ _ (by omega), cuda_eq_ref]
      · exact Or.inl (calculateDFTCUDALargeMem_oom _ budget (by simp) hb)

theorem C9_witness :
    0 < [(1 : ℂ)].length ∧ 1 < [(1 : ℂ)].length + 1 ∧
      calculateDFTCUDALargeMem [(1 : ℂ)] 1 = none ∧
      (calculateDFTCUDALargeMem [(1 : ℂ)] 1 = none ∨
        calculateDFTCUDALargeMem [(1 : ℂ)] 1 = some (calculateDFT [(1 : ℂ)])) :=
  ⟨by simp, by simp,
    (C9_no_partial_results [(1 : ℂ)] 1).1 (by simp) (by simp),
    (C9_no_partial_results [(1 : ℂ)] 1).2⟩

/-- Claim C10: all three operations declared in `src/DFT.h` return `void`
and take exactly two `std::complex<float>*` pointers plus a `size_t` count,
so no error condition can be reported through the return value or detected
from the argument types; any failure signaling must be out-of-band. -/
theorem C10_void_signatures :
    dftHeaderDecls.map CDecl.ret = [CType.void, CType.void, CType.void] ∧
    dftHeaderDecls.map CDecl.params =
      List.replicate 3 [CType.complexFloatPtr, CType.complexFloatPtr, CType.size_t] :=
  ⟨rfl, rfl⟩
